import Mathlib

/-!
Shallow embedding of the hackernews-node-ts query/validation layer
(`src/schema.ts`): the validation utilities (`parseIntSafe`,
`validateAndNormalizeUrl`, `applyTakeConstraints`, `applySkipConstraints`),
the resolvers (`feed`, `link`, `comment`, `Link.comments`, `postLink`,
`postCommentOnLink`) and a list-based model of the Prisma store.

JavaScript numbers are modelled as `Nat`/`Int` (all values in play are small
integers), strings as Lean `String`/`List Char`, thrown `GraphQLError`s as an
`Except` error branch, and the regular expressions of the source as explicit
decidable matchers over `List Char` that mirror the regexes character class by
character class.
-/

namespace HackerNews

/-- ASCII decimal digit, the `\d` class of the source's regexes. -/
def isDigitC (c : Char) : Bool :=
  48 ≤ c.toNat && c.toNat ≤ 57

/-- ASCII hexadecimal digit (for the radix-16 branch of JS `parseInt`). -/
def isHexDigitC (c : Char) : Bool :=
  (48 ≤ c.toNat && c.toNat ≤ 57) || (97 ≤ c.toNat && c.toNat ≤ 102) ||
    (65 ≤ c.toNat && c.toNat ≤ 70)

/-- JavaScript whitespace as used by `String.prototype.trim` and `parseInt`:
space, tab, line feed, vertical tab, form feed, carriage return, NBSP and the
BOM (the common WhiteSpace/LineTerminator code points). -/
def isJsWs (c : Char) : Bool :=
  c.toNat == 32 || c.toNat == 9 || c.toNat == 10 || c.toNat == 11 ||
    c.toNat == 12 || c.toNat == 13 || c.toNat == 160 || c.toNat == 65279

/-- Numeric value of a decimal digit string (big-endian fold), the value JS
`parseInt(_, 10)` computes on an all-digit string. -/
def digitsVal (l : List Char) : Nat :=
  l.foldl (fun acc c => acc * 10 + (c.toNat - 48)) 0

/-- Numeric value of a hexadecimal digit string. -/
def hexVal (l : List Char) : Nat :=
  l.foldl (fun acc c =>
    acc * 16 +
      (if 97 ≤ c.toNat then c.toNat - 87
       else if 65 ≤ c.toNat then c.toNat - 55
       else c.toNat - 48)) 0

/-- `parseIntSafe` of `src/schema.ts`: tests the input against `^(\d+)$` and
returns `parseInt(value, 10)` on success, `null` otherwise. The JS number is
idealized here as an exact integer — faithful for every value up to
`2 ^ 53`, the range the store's autoincrement ids live in;
`parseIntSafeDouble` below keeps the IEEE-754 rounding JS applies beyond
that bound, and `parseIntSafeDouble_eq_parseIntSafe` proves the two agree
below it. -/
def parseIntSafe (value : String) : Option Nat :=
  if value.data ≠ [] ∧ value.data.all isDigitC then
    some (digitsVal value.data)
  else
    none

/-- Binary logarithm with structural fuel, so that the kernel can evaluate
it on large literals: `log2F fuel n` is the floor of `log2 n` for every
`1 ≤ n < 2 ^ fuel`. -/
def log2F : Nat → Nat → Nat
  | 0, _ => 0
  | fuel + 1, n => if 2 ≤ n then log2F fuel (n / 2) + 1 else 0

/-- Round a natural number to the nearest IEEE-754 binary64 value
(round-to-nearest, ties-to-even), the number a JS engine actually stores:
integers up to `2 ^ 53` are exactly representable; above, only multiples of
`2 ^ k` are, where `k` is the bit length minus 53. -/
def roundToDouble (n : Nat) : Nat :=
  if n ≤ 2 ^ 53 then n
  else
    let k := log2F 1100 n - 52
    let q := n / 2 ^ k
    let r := n % 2 ^ k
    if r < 2 ^ (k - 1) then q * 2 ^ k
    else if 2 ^ (k - 1) < r then (q + 1) * 2 ^ k
    else if q % 2 = 0 then q * 2 ^ k
    else (q + 1) * 2 ^ k

/-- `parseIntSafe` of `src/schema.ts` with the JS number kept faithful: the
result of `parseInt(value, 10)` is the digit string's value rounded to the
nearest representable IEEE-754 double, which for values above `2 ^ 53` is
not always the equal integer. -/
def parseIntSafeDouble (value : String) : Option Nat :=
  if value.data ≠ [] ∧ value.data.all isDigitC then
    some (roundToDouble (digitsVal value.data))
  else
    none

/-- Canonical decimal rendering of a natural number (no leading zeros),
used to state that `parseIntSafe` returns the integer equal to a digit
string. -/
def natDigits (n : Nat) : List Char :=
  if h : n < 10 then [Nat.digitChar n]
  else natDigits (n / 10) ++ [Nat.digitChar (n % 10)]
  decreasing_by
    exact Nat.div_lt_self (by omega) (by omega)

/-- The optional-sign step of JS `parseInt`: the sign factor and the text
after the sign character, if one is present. -/
def stripSignFn (l : List Char) : Int × List Char :=
  match l with
  | c :: r =>
    if c = '-' then (-1, r) else if c = '+' then (1, r) else (1, c :: r)
  | [] => (1, [])

/-- The digit-reading step of JS `parseInt` with no radix argument: a
`0x`/`0X` prefix switches to hexadecimal, otherwise the longest decimal
digit prefix is read; `none` models `NaN` (no digit found). -/
def parseDigits (l1 : List Char) : Option Nat :=
  match l1 with
  | c0 :: c1 :: r =>
    if c0 = '0' ∧ (c1 = 'x' ∨ c1 = 'X') then
      if r.takeWhile isHexDigitC = [] then none
      else some (hexVal (r.takeWhile isHexDigitC))
    else
      if l1.takeWhile isDigitC = [] then none
      else some (digitsVal (l1.takeWhile isDigitC))
  | l =>
    if l.takeWhile isDigitC = [] then none
    else some (digitsVal (l.takeWhile isDigitC))

/-- JavaScript `parseInt(string)` with no radix argument: skip leading
whitespace, read an optional sign, switch to hexadecimal after a `0x`/`0X`
prefix, then take the longest prefix of digits of the selected radix;
`none` models the `NaN` result when that prefix is empty. -/
def parseIntJS (s : String) : Option Int :=
  let p := stripSignFn (s.data.dropWhile isJsWs)
  (parseDigits p.2).map fun v => p.1 * (v : Int)

/-- JS `String.prototype.trim`: drop leading whitespace. -/
def trimLeft (l : List Char) : List Char := l.dropWhile isJsWs

/-- JS `String.prototype.trim` over `List Char`: drop leading and trailing
whitespace. -/
def trimL (l : List Char) : List Char :=
  ((trimLeft l).reverse.dropWhile isJsWs).reverse

/-- JS `\w` word character, as used by the `\b` word boundary in the URL
regex. -/
def isWordChar (c : Char) : Bool :=
  (65 ≤ c.toNat && c.toNat ≤ 90) || (97 ≤ c.toNat && c.toNat ≤ 122) ||
    (48 ≤ c.toNat && c.toNat ≤ 57) || c.toNat == 95

/-- The character class `[-a-zA-Z0-9@:%._\+~#=]` of the URL/domain regexes. -/
def inClassA (c : Char) : Bool :=
  c = '-' || c.isAlpha || isDigitC c || c = '@' || c = ':' || c = '%' ||
    c = '.' || c = '_' || c = '+' || c = '~' || c = '#' || c = '='

/-- The character class `[a-zA-Z0-9()]` of the URL/domain regexes. -/
def inClassB (c : Char) : Bool :=
  c.isAlpha || isDigitC c || c = '(' || c = ')'

/-- The character class `[-a-zA-Z0-9()@:%_\+.~#?&//=]` of the URL/domain
regexes. -/
def inClassC (c : Char) : Bool :=
  c = '-' || c.isAlpha || isDigitC c || c = '(' || c = ')' || c = '@' ||
    c = ':' || c = '%' || c = '_' || c = '+' || c = '.' || c = '~' ||
    c = '#' || c = '?' || c = '&' || c = '/' || c = '='

/-- The `\b` word boundary between the `[a-zA-Z0-9()]{1,6}` group (its last
character is `x`) and the trailing group `c`. -/
def boundaryOk (x : Char) (c : List Char) : Bool :=
  match c with
  | [] => isWordChar x
  | y :: _ => isWordChar x != isWordChar y

/-- Match of `[a-zA-Z0-9()]{1,6}\b([-a-zA-Z0-9()@:%_\+.~#?&//=]*)$` against
`rest`, the text following the mandatory dot. -/
def tailMatch (rest : List Char) : Bool :=
  (List.range 6).any fun m =>
    let j := m + 1
    decide (j ≤ rest.length) &&
    (rest.take j).all inClassB &&
    (match (rest.take j).getLast? with
     | some x => boundaryOk x (rest.drop j)
     | none => false) &&
    (rest.drop j).all inClassC

/-- Match of `[-a-zA-Z0-9@:%._\+~#=]{1,256}\.` followed by `tailMatch`
against `l` (the part after the optional `www.`). -/
def domainCore (l : List Char) : Bool :=
  (List.range 256).any fun n =>
    let i := n + 1
    decide (i < l.length) &&
    (l.take i).all inClassA &&
    (match l.drop i with
     | c :: rest => c = '.' && tailMatch rest
     | [] => false)

/-- Match of the scheme-less pattern
`^(www\.)?[-a-zA-Z0-9@:%._\+~#=]{1,256}\.[a-zA-Z0-9()]{1,6}\b([-a-zA-Z0-9()@:%_\+.~#?&//=]*)$`
(the body shared by the URL and the domain regex of `validateAndNormalizeUrl`). -/
def domainBody (l : List Char) : Bool :=
  domainCore l || (("www.".data.isPrefixOf l) && domainCore (l.drop 4))

/-- The `^https?:\/\//` scheme test of `validateAndNormalizeUrl`: `some rest`
holds the text after the scheme when the (trimmed) text starts with
`http://` or `https://`. -/
def schemePrefix (l : List Char) : Option (List Char) :=
  if "http://".data.isPrefixOf l then some (l.drop 7)
  else if "https://".data.isPrefixOf l then some (l.drop 8)
  else none

/-- A thrown error of the resolver layer: a `GraphQLError` with its message,
or a store error propagated unmodified. -/
inductive PrismaError where
  | known (code : String) (msg : String)
  | otherErr (msg : String)
  deriving Repr, DecidableEq

/-- An error surfaced to the caller: a `GraphQLError` thrown by the resolver,
or a store-reported error that propagated unmodified. -/
inductive Err where
  | graphQLError (msg : String)
  | storeError (e : PrismaError)
  deriving Repr, DecidableEq

/-- `validateAndNormalizeUrl` of `src/schema.ts`: trim, then if the text
starts with an `http://`/`https://` scheme validate it against the full URL
regex and return it unchanged, otherwise validate it against the scheme-less
domain regex and prepend `https://`. -/
def validateAndNormalizeUrl (url : String) : Except Err String :=
  match schemePrefix (trimL url.data) with
  | some rest =>
    if domainBody rest then .ok (String.mk (trimL url.data))
    else .error (.graphQLError "Invalid URL format.")
  | none =>
    if domainBody (trimL url.data) then
      .ok (String.mk ("https://".data ++ trimL url.data))
    else .error (.graphQLError "Invalid domain format.")

/-- The persisted `Link` record (`prisma/schema.prisma`): autoincrement id,
creation timestamp, description and normalized url. Timestamps are modelled
as naturals. -/
structure Link where
  id : Nat
  createdAt : Nat
  description : String
  url : String
  deriving Repr, DecidableEq

/-- The persisted `Comment` record (`prisma/schema.prisma`): autoincrement
id, creation timestamp, body and the foreign key `linkId`. -/
structure Comment where
  id : Nat
  createdAt : Nat
  body : String
  linkId : Nat
  deriving Repr, DecidableEq

/-- The persisted state of the store: the two tables plus the autoincrement
counters and a clock supplying `createdAt` values. -/
structure StoreState where
  links : List Link
  comments : List Comment
  nextLinkId : Nat
  nextCommentId : Nat
  now : Nat
  deriving Repr, DecidableEq

/-- Substring test (Prisma `contains` with the store's default
case-sensitive text comparison): `needle` occurs contiguously in `hay`. -/
def containsSub (needle hay : List Char) : Bool :=
  (List.range (hay.length + 1)).any fun i => needle.isPrefixOf (hay.drop i)

/-- The `where` clause `feed` builds: a Link passes when its description or
its url contains the needle as a substring. -/
def linkMatchesNeedle (needle : String) (l : Link) : Bool :=
  containsSub needle.data l.description.data ||
    containsSub needle.data l.url.data

/-- The store's `link.findMany({where, skip, take})` as `feed` calls it:
filter (JS truthiness — an absent or empty needle means no restriction),
then `skip`, then `take` over the ordered table. -/
def listLinks (s : StoreState) (needle : Option String) (skip take : Int) :
    List Link :=
  let base := match needle with
    | some f => if f = "" then s.links else s.links.filter (linkMatchesNeedle f)
    | none => s.links
  (base.drop skip.toNat).take take.toNat

/-- The template literal of `applyTakeConstraints`'s error message. -/
def takeRangeMsg (min max value : Int) : String :=
  "'take' argument value '" ++ toString value ++
    "' is outside the valid range of '" ++ toString min ++ "' to '" ++
    toString max ++ "'."

/-- The template literal of `applySkipConstraints`'s error message. -/
def skipRangeMsg (value : Int) : String :=
  "'skip' argument value '" ++ toString value ++
    "' should be greater than or equal to 0."

/-- `applyTakeConstraints` of `src/schema.ts`. -/
def applyTakeConstraints (min max value : Int) : Except Err Int :=
  if value < min ∨ value > max then
    .error (.graphQLError (takeRangeMsg min max value))
  else
    .ok value

/-- `applySkipConstraints` of `src/schema.ts`. -/
def applySkipConstraints (value : Int) : Except Err Int :=
  if value < 0 then
    .error (.graphQLError (skipRangeMsg value))
  else
    .ok value

/-- The `feed` resolver: build the `where` clause, validate `take`
(defaulting to 30) then `skip` (defaulting to 0), and call `findMany`.
The returned state is the unchanged input state — `findMany` is a read. -/
def feed (s : StoreState) (filterNeedle : Option String)
    (skip take : Option Int) : Except Err (List Link) × StoreState :=
  match applyTakeConstraints 1 50 (take.getD 30) with
  | .error e => (.error e, s)
  | .ok t =>
    match applySkipConstraints (skip.getD 0) with
    | .error e => (.error e, s)
    | .ok k => (.ok (listLinks s filterNeedle k t), s)

/-- The store's `link.findUnique({where: {id}})`. -/
def findLinkById (s : StoreState) (i : Int) : Option Link :=
  s.links.find? fun l => (l.id : Int) = i

/-- The store's `comment.findUnique({where: {id}})`. -/
def findCommentById (s : StoreState) (i : Int) : Option Comment :=
  s.comments.find? fun c => (c.id : Int) = i

/-- The `Query.link` resolver: `findUnique({where: {id: parseInt(args.id)}})`.
Modelled from the spec for the store's part: a `NaN` id (lenient parse
finds no digits) is treated as a lookup miss, not a validation error. -/
def queryLink (s : StoreState) (id : String) : Option Link :=
  match parseIntJS id with
  | none => none
  | some i => findLinkById s i

/-- The `Query.comment` resolver: `findUnique({where: {id: parseInt(args.id)}})`.
Modelled from the spec for the store's part: a `NaN` id is a lookup miss. -/
def queryComment (s : StoreState) (id : String) : Option Comment :=
  match parseIntJS id with
  | none => none
  | some i => findCommentById s i

/-- Descending order on `createdAt`: `a` may stand before `b` when `a` is no
older than `b`. -/
def newerFirst (a b : Comment) : Prop := b.createdAt ≤ a.createdAt

instance : DecidableRel newerFirst := fun a b =>
  inferInstanceAs (Decidable (b.createdAt ≤ a.createdAt))

instance : IsTotal Comment newerFirst :=
  ⟨fun a b => Nat.le_total b.createdAt a.createdAt⟩

instance : IsTrans Comment newerFirst :=
  ⟨fun _ _ _ hab hbc => Nat.le_trans hbc hab⟩

/-- The `Link.comments` field resolver: the store's
`comment.findMany({orderBy: {createdAt: 'desc'}, where: {linkId}})`,
modelled as a stable sort (newest first) of the filtered table. -/
def linkComments (s : StoreState) (parent : Link) : List Comment :=
  List.insertionSort newerFirst
    (s.comments.filter fun c => c.linkId = parent.id)

/-- The store's `link.create`: assigns the next id and the current
timestamp, appends the row, and advances the counters and the clock. -/
def createLink (s : StoreState) (url description : String) :
    Link × StoreState :=
  let l : Link :=
    { id := s.nextLinkId, createdAt := s.now, description := description,
      url := url }
  (l,
    { s with
      links := s.links ++ [l]
      nextLinkId := s.nextLinkId + 1
      now := s.now + 1 })

/-- The store's `comment.create`: fails with the Prisma known error `P2003`
(foreign key constraint violation) when `linkId` references no existing
Link; otherwise assigns the next id and timestamp and appends the row. -/
def createComment (s : StoreState) (body : String) (linkId : Int) :
    Except PrismaError (Comment × StoreState) :=
  if ∃ l ∈ s.links, (l.id : Int) = linkId then
    let c : Comment :=
      { id := s.nextCommentId, createdAt := s.now, body := body,
        linkId := linkId.toNat }
    .ok (c,
      { s with
        comments := s.comments ++ [c]
        nextCommentId := s.nextCommentId + 1
        now := s.now + 1 })
  else
    .error (.known "P2003" "Foreign key constraint failed")

/-- The `postLink` resolver: normalize the url (a failure there throws), then
reject an empty description, then `link.create`. -/
def postLink (s : StoreState) (url description : String) :
    Except Err Link × StoreState :=
  match validateAndNormalizeUrl url with
  | .error e => (.error e, s)
  | .ok normalizedUrl =>
    if description.length = 0 then
      (.error (.graphQLError "Cannot post link with empty description."), s)
    else
      let p := createLink s normalizedUrl description
      (.ok p.1, p.2)

/-- The `.catch` handler of `postCommentOnLink`: a Prisma known request
error with code `P2003` is translated into the non-existing-link
`GraphQLError` (with a trailing period); every other error is re-thrown
unmodified. -/
def commentCatchHandler (linkId : String) (e : PrismaError) : Err :=
  match e with
  | .known code _ =>
    if code = "P2003" then
      .graphQLError
        ("Cannot post comment on non-existing link with id '" ++ linkId ++ "'.")
    else .storeError e
  | .otherErr _ => .storeError e

/-- The `postCommentOnLink` resolver: `parseIntSafe` the linkId (rejecting
with the non-existing-link message, no trailing period), reject an empty
body, then `comment.create` with the `.catch` translation of `P2003`.
The source passes `parseInt(args.linkId)` to `create`; the lemma
`parseIntJS_agrees_on_digits` shows this equals the `parseIntSafe` value on
every string `parseIntSafe` accepts. -/
def postCommentOnLink (s : StoreState) (linkId body : String) :
    Except Err Comment × StoreState :=
  match parseIntSafe linkId with
  | none =>
    (.error (.graphQLError
      ("Cannot post comment on non-existing link with id '" ++ linkId ++ "'")), s)
  | some n =>
    if body.length = 0 then
      (.error (.graphQLError "Cannot post empty comment."), s)
    else
      match createComment s body (n : Int) with
      | .ok p => (.ok p.1, p.2)
      | .error e => (.error (commentCatchHandler linkId e), s)

instance exceptDecEq {α β : Type} [DecidableEq α] [DecidableEq β] :
    DecidableEq (Except α β) := fun a b =>
  match a, b with
  | .ok x, .ok y =>
    if h : x = y then .isTrue (by rw [h]) else .isFalse (by simp [h])
  | .error x, .error y =>
    if h : x = y then .isTrue (by rw [h]) else .isFalse (by simp [h])
  | .ok _, .error _ => .isFalse (by simp)
  | .error _, .ok _ => .isFalse (by simp)

/-- An empty store, used by concrete witnesses. -/
def emptyStore : StoreState :=
  { links := [], comments := [], nextLinkId := 1, nextCommentId := 1, now := 0 }

/-- A one-link store (the link has id 1), used by concrete witnesses. -/
def oneLinkStore : StoreState :=
  { links := [{ id := 1, createdAt := 0, description := "first", url := "https://a.b" }]
    comments := []
    nextLinkId := 2
    nextCommentId := 1
    now := 1 }

/-- A store holding exactly one Link, with id 15, used to exhibit the
hexadecimal behaviour of the lenient id parse. -/
def hexStore : StoreState :=
  { links := [{ id := 15, createdAt := 0, description := "fifteen",
                url := "https://x.y" }]
    comments := []
    nextLinkId := 16
    nextCommentId := 1
    now := 1 }

/-! ### Digit-string lemmas -/

lemma digitsVal_append_singleton (l : List Char) (c : Char) :
    digitsVal (l ++ [c]) = digitsVal l * 10 + (c.toNat - 48) := by
  unfold digitsVal
  rw [List.foldl_append]
  rfl

lemma digitChar_isDigitC {d : Nat} (hd : d < 10) :
    isDigitC (Nat.digitChar d) = true := by
  interval_cases d <;> decide

lemma digitChar_toNat {d : Nat} (hd : d < 10) :
    (Nat.digitChar d).toNat - 48 = d := by
  interval_cases d <;> decide

lemma natDigits_all_digits (n : Nat) : (natDigits n).all isDigitC = true := by
  induction n using Nat.strong_induction_on with
  | _ n ih =>
    rw [natDigits]
    by_cases h : n < 10
    · simp [h, digitChar_isDigitC h]
    · have hrec := ih (n / 10) (Nat.div_lt_self (by omega) (by omega))
      simp only [h, dite_false, List.all_append, hrec, Bool.true_and]
      simp [digitChar_isDigitC (Nat.mod_lt n (by omega))]

lemma digitsVal_natDigits (n : Nat) : digitsVal (natDigits n) = n := by
  induction n using Nat.strong_induction_on with
  | _ n ih =>
    rw [natDigits]
    by_cases h : n < 10
    · simp only [h, dite_true]
      show digitsVal ([] ++ [Nat.digitChar n]) = n
      rw [digitsVal_append_singleton]
      simpa [digitsVal] using digitChar_toNat h
    · have hrec := ih (n / 10) (Nat.div_lt_self (by omega) (by omega))
      simp only [h, dite_false, digitsVal_append_singleton, hrec,
        digitChar_toNat (Nat.mod_lt n (by omega))]
      omega

lemma natDigits_ne_nil (n : Nat) : natDigits n ≠ [] := by
  rw [natDigits]
  by_cases h : n < 10 <;> simp [h]

lemma roundToDouble_of_le {n : Nat} (h : n ≤ 2 ^ 53) :
    roundToDouble n = n := by
  unfold roundToDouble
  rw [if_pos h]

lemma parseIntSafeDouble_eq_parseIntSafe (s : String)
    (h : digitsVal s.data ≤ 2 ^ 53) :
    parseIntSafeDouble s = parseIntSafe s := by
  unfold parseIntSafeDouble parseIntSafe
  by_cases hc : s.data ≠ [] ∧ s.data.all isDigitC = true
  · rw [if_pos hc, if_pos hc, roundToDouble_of_le h]
  · rw [if_neg hc, if_neg hc]

/-- C7 counterexample. `9007199254740993` (that is, 2^53 + 1) is a non-empty
string of ASCII digits whose equal integer value is 9007199254740993, yet
`parseInt(value, 10)` returns the IEEE-754 double 9007199254740992, so
`parseIntSafe` does not return the equal integer value on every digit
string. -/
theorem parseIntSafe_exact_cex :
    ("9007199254740993".data ≠ [] ∧
      "9007199254740993".data.all isDigitC = true ∧
      digitsVal "9007199254740993".data = 9007199254740993) ∧
    parseIntSafeDouble "9007199254740993" = some 9007199254740992 ∧
    parseIntSafeDouble "9007199254740993" ≠ some 9007199254740993 := by
  refine ⟨by decide, by decide, by decide⟩

/-- C7 amended. For every string of ASCII digits (length at least one) whose
integer value is at most `2 ^ 53`, `parseIntSafe` returns the equal
integer value — in particular it inverts the canonical decimal rendering
of every natural number up to that bound, and agrees there with the
exact-integer idealization used by the resolvers; a digit string above
`2 ^ 53` returns its value rounded to the nearest IEEE-754 double (ties to
even), which is not always the equal integer; for every other string
(empty, signs, whitespace, any non-digit character) it returns `null`
(modelled as `none`). -/
theorem parseIntSafeDouble_spec :
    (∀ s : String, s.data ≠ [] → s.data.all isDigitC = true →
      digitsVal s.data ≤ 2 ^ 53 →
      parseIntSafeDouble s = some (digitsVal s.data)) ∧
    (∀ n : Nat, n ≤ 2 ^ 53 →
      parseIntSafeDouble (String.mk (natDigits n)) = some n) ∧
    (∀ s : String, digitsVal s.data ≤ 2 ^ 53 →
      parseIntSafeDouble s = parseIntSafe s) ∧
    (∀ s : String, s.data ≠ [] → s.data.all isDigitC = true →
      parseIntSafeDouble s = some (roundToDouble (digitsVal s.data))) ∧
    (∀ s : String, ¬(s.data ≠ [] ∧ s.data.all isDigitC = true) →
      parseIntSafeDouble s = none) ∧
    parseIntSafeDouble "" = none ∧ parseIntSafeDouble "+12" = none ∧
    parseIntSafeDouble " 12" = none ∧ parseIntSafeDouble "12 " = none ∧
    parseIntSafeDouble "1.5" = none ∧ parseIntSafeDouble "12a" = none ∧
    parseIntSafeDouble "-3" = none ∧ parseIntSafeDouble "007" = some 7 := by
  refine ⟨?_, ?_, parseIntSafeDouble_eq_parseIntSafe, ?_, ?_, by decide,
    by decide, by decide, by decide, by decide, by decide, by decide,
    by decide⟩
  · intro s hne hall hle
    simp [parseIntSafeDouble, hne, hall, roundToDouble_of_le hle]
  · intro n hle
    have hne : (String.mk (natDigits n)).data ≠ [] := by
      simpa using natDigits_ne_nil n
    have hall : (String.mk (natDigits n)).data.all isDigitC = true := by
      simpa using natDigits_all_digits n
    simp [parseIntSafeDouble, hne, hall, digitsVal_natDigits,
      roundToDouble_of_le hle]
  · intro s hne hall
    simp [parseIntSafeDouble, hne, hall]
  · intro s hbad
    simp only [parseIntSafeDouble, ite_eq_right_iff]
    intro hgood
    exact absurd hgood hbad

/-- Witness for the amended C7 at concrete inputs. -/
theorem parseIntSafeDouble_spec_witness :
    parseIntSafeDouble "42" = some 42 ∧
    parseIntSafeDouble (String.mk (natDigits 120)) = some 120 := by
  constructor
  · have h := parseIntSafeDouble_spec.1 "42" (by decide) (by decide)
      (by decide)
    rw [h]
    rfl
  · exact parseIntSafeDouble_spec.2.1 120 (by decide)

/-! ### Pagination validation (`feed`) -/

/-- C3. `feed` defaults a missing `take` to 30 and a missing `skip` to 0; it
fails with the range-naming `GraphQLError` exactly when the effective take
is outside `[1, 50]` or (take being in range) the effective skip is
negative, and otherwise calls `findMany` with the filter, skip and take.
`applyTakeConstraints 1 50` rejects 0 and 51 and returns 30 on 30;
`applySkipConstraints` rejects -1 and returns 0 on 0. -/
theorem feed_take_skip_spec :
    applyTakeConstraints 1 50 0 = .error (.graphQLError
      "'take' argument value '0' is outside the valid range of '1' to '50'.") ∧
    applyTakeConstraints 1 50 51 = .error (.graphQLError
      "'take' argument value '51' is outside the valid range of '1' to '50'.") ∧
    applyTakeConstraints 1 50 30 = .ok 30 ∧
    applySkipConstraints (-1) = .error (.graphQLError
      "'skip' argument value '-1' should be greater than or equal to 0.") ∧
    applySkipConstraints 0 = .ok 0 ∧
    (∀ s needle k, feed s needle k none = feed s needle k (some 30)) ∧
    (∀ s needle t, feed s needle none t = feed s needle (some 0) t) ∧
    (∀ s needle k (t : Int), t < 1 ∨ t > 50 →
      feed s needle k (some t) =
        (.error (.graphQLError (takeRangeMsg 1 50 t)), s)) ∧
    (∀ s needle (k t : Int), 1 ≤ t → t ≤ 50 → k < 0 →
      feed s needle (some k) (some t) =
        (.error (.graphQLError (skipRangeMsg k)), s)) ∧
    (∀ s needle (k t : Int), 1 ≤ t → t ≤ 50 → 0 ≤ k →
      feed s needle (some k) (some t) = (.ok (listLinks s needle k t), s)) := by
  refine ⟨by decide, by decide, by decide, by decide, by decide, ?_, ?_, ?_, ?_, ?_⟩
  · intro s needle k
    rfl
  · intro s needle t
    rfl
  · intro s needle k t ht
    have h1 : t < 1 ∨ t > 50 := ht
    simp only [feed, Option.getD_some, applyTakeConstraints, if_pos h1]
  · intro s needle k t ht1 ht2 hk
    have h1 : ¬(t < 1 ∨ t > 50) := by omega
    simp only [feed, Option.getD_some, applyTakeConstraints, if_neg h1,
      applySkipConstraints, if_pos hk]
  · intro s needle k t ht1 ht2 hk
    have h1 : ¬(t < 1 ∨ t > 50) := by omega
    have h2 : ¬(k < 0) := by omega
    simp only [feed, Option.getD_some, applyTakeConstraints, if_neg h1,
      applySkipConstraints, if_neg h2]

/-- Witness for C3: the defaults and each failure case at a concrete input
over the empty store. -/
theorem feed_take_skip_spec_witness :
    feed emptyStore none (some 0) (some 51) =
      (.error (.graphQLError
        "'take' argument value '51' is outside the valid range of '1' to '50'."),
       emptyStore) ∧
    feed emptyStore none (some (-1)) (some 30) =
      (.error (.graphQLError
        "'skip' argument value '-1' should be greater than or equal to 0."),
       emptyStore) ∧
    feed emptyStore none (some 0) (some 30) = (.ok [], emptyStore) := by
  refine ⟨?_, ?_, ?_⟩
  · exact feed_take_skip_spec.2.2.2.2.2.2.2.1 emptyStore none (some 0) 51
      (by omega)
  · exact feed_take_skip_spec.2.2.2.2.2.2.2.2.1 emptyStore none (-1) 30
      (by omega) (by omega) (by omega)
  · have h := feed_take_skip_spec.2.2.2.2.2.2.2.2.2 emptyStore none 0 30
      (by omega) (by omega) (by omega)
    rw [h]
    rfl

/-- C4. With a non-empty `filterNeedle` and valid pagination arguments,
`feed` returns exactly the Links whose description or url contains the
needle as a substring, with `skip` applied before `take` over the filtered
sequence; every returned Link matches the needle and comes from the store.
With no `filterNeedle`, no filter restriction is applied. -/
theorem feed_filter_spec (s : StoreState) (needle : String) (k t : Int)
    (hne : needle ≠ "") (ht1 : 1 ≤ t) (ht2 : t ≤ 50) (hk : 0 ≤ k) :
    (feed s (some needle) (some k) (some t)).1 =
      .ok (((s.links.filter (linkMatchesNeedle needle)).drop k.toNat).take
        t.toNat) ∧
    (∀ l, l ∈ ((s.links.filter (linkMatchesNeedle needle)).drop k.toNat).take
        t.toNat →
      linkMatchesNeedle needle l = true ∧ l ∈ s.links) ∧
    (feed s none (some k) (some t)).1 =
      .ok ((s.links.drop k.toNat).take t.toNat) := by
  have h1 : ¬(t < 1 ∨ t > 50) := by omega
  have h2 : ¬(k < 0) := by omega
  refine ⟨?_, ?_, ?_⟩
  · simp only [feed, Option.getD_some, applyTakeConstraints, if_neg h1,
      applySkipConstraints, if_neg h2, listLinks, if_neg hne]
  · intro l hl
    have hd := List.mem_of_mem_take hl
    have hf := List.mem_of_mem_drop hd
    have hm := List.mem_filter.mp hf
    exact ⟨hm.2, hm.1⟩
  · simp only [feed, Option.getD_some, applyTakeConstraints, if_neg h1,
      applySkipConstraints, if_neg h2, listLinks]

/-- Witness for C4: in a one-link store, the needle `b` (a substring of the
link's url) returns the link; the needle `zz` returns nothing. -/
theorem feed_filter_spec_witness :
    (feed oneLinkStore (some "b") (some 0) (some 10)).1 =
      .ok [{ id := 1, createdAt := 0, description := "first",
             url := "https://a.b" }] ∧
    (feed oneLinkStore (some "zz") (some 0) (some 10)).1 = .ok [] := by
  constructor
  · have h := (feed_filter_spec oneLinkStore "b" 0 10 (by decide) (by omega)
      (by omega) (by omega)).1
    rw [h]
    rfl
  · have h := (feed_filter_spec oneLinkStore "zz" 0 10 (by decide) (by omega)
      (by omega) (by omega)).1
    rw [h]
    rfl

/-! ### `postLink` -/

/-- C6. `postLink` normalizes the url, rejects an empty description with the
exact message `Cannot post link with empty description.` (leaving the store
untouched), and otherwise creates and returns a Link carrying the
normalized url, the given description and the system-assigned id (positive
whenever the store's id counter is, as it is from the initial state on);
in particular `postLink(url="graphql-yoga.com", description="desc")`
creates a Link with url `https://graphql-yoga.com` and description
`desc`. -/
theorem postLink_spec :
    (∀ s url desc u, validateAndNormalizeUrl url = .ok u → desc ≠ "" →
      (postLink s url desc).1 =
        .ok { id := s.nextLinkId, createdAt := s.now, description := desc,
              url := u } ∧
      (postLink s url desc).2.links =
        s.links ++ [{ id := s.nextLinkId, createdAt := s.now,
                      description := desc, url := u }] ∧
      (0 < s.nextLinkId → ∃ l, (postLink s url desc).1 = .ok l ∧
        l.url = u ∧ l.description = desc ∧ 0 < l.id)) ∧
    (∀ s url u, validateAndNormalizeUrl url = .ok u →
      postLink s url "" =
        (.error (.graphQLError "Cannot post link with empty description."),
         s)) ∧
    (∀ s, 0 < s.nextLinkId → ∃ l, (postLink s "graphql-yoga.com" "desc").1 = .ok l ∧
      l.url = "https://graphql-yoga.com" ∧ l.description = "desc" ∧
      0 < l.id) := by
  have hmain : ∀ (s : StoreState) url desc u,
      validateAndNormalizeUrl url = .ok u → desc ≠ "" →
      (postLink s url desc).1 =
        .ok { id := s.nextLinkId, createdAt := s.now, description := desc,
              url := u } ∧
      (postLink s url desc).2.links =
        s.links ++ [{ id := s.nextLinkId, createdAt := s.now,
                      description := desc, url := u }] := by
    intro s url desc u hu hd
    have hlen : ¬(desc.length = 0) := by
      intro h0
      exact hd (String.ext (List.length_eq_zero.mp h0))
    simp [postLink, hu, if_neg hlen, createLink]
  refine ⟨?_, ?_, ?_⟩
  · intro s url desc u hu hd
    obtain ⟨h1, h2⟩ := hmain s url desc u hu hd
    exact ⟨h1, h2, fun hpos =>
      ⟨{ id := s.nextLinkId, createdAt := s.now, description := desc,
         url := u }, h1, rfl, rfl, hpos⟩⟩
  · intro s url u hu
    simp [postLink, hu]
  · intro s hpos
    have hu :
        validateAndNormalizeUrl "graphql-yoga.com" = .ok "https://graphql-yoga.com" := by
      rfl
    obtain ⟨h1, _⟩ := hmain s "graphql-yoga.com" "desc" "https://graphql-yoga.com" hu
      (by decide)
    exact ⟨{ id := s.nextLinkId, createdAt := s.now, description := "desc",
             url := "https://graphql-yoga.com" }, h1, rfl, rfl, hpos⟩

/-- Witness for C6: posting `graphql-yoga.com` with description `desc` to
the empty store creates the normalized link, and an empty description is
rejected. -/
theorem postLink_spec_witness :
    (postLink emptyStore "graphql-yoga.com" "desc").1 =
      .ok { id := 1, createdAt := 0, description := "desc",
            url := "https://graphql-yoga.com" } ∧
    postLink emptyStore "graphql-yoga.com" "" =
      (.error (.graphQLError "Cannot post link with empty description."),
       emptyStore) := by
  constructor
  · exact ((postLink_spec.1 emptyStore "graphql-yoga.com" "desc"
      "https://graphql-yoga.com" (by rfl) (by decide)).1)
  · exact postLink_spec.2.1 emptyStore "graphql-yoga.com"
      "https://graphql-yoga.com" (by rfl)

/-! ### `postCommentOnLink` -/

lemma isJsWs_of_digit {c : Char} (h : isDigitC c = true) : isJsWs c = false := by
  simp only [isDigitC, Bool.and_eq_true, decide_eq_true_eq] at h
  simp only [isJsWs]
  simp only [Bool.or_eq_false_iff, beq_eq_false_iff_ne, ne_eq]
  omega

lemma digit_not_special {c : Char} (h : isDigitC c = true) :
    c ≠ '-' ∧ c ≠ '+' ∧ c ≠ 'x' ∧ c ≠ 'X' := by
  refine ⟨?_, ?_, ?_, ?_⟩ <;> rintro rfl <;> exact absurd h (by decide)

lemma takeWhile_of_all {p : Char → Bool} :
    ∀ l : List Char, l.all p = true → l.takeWhile p = l := by
  intro l hl
  induction l with
  | nil => rfl
  | cons a l ih =>
    simp only [List.all_cons, Bool.and_eq_true] at hl
    simp [List.takeWhile_cons, hl.1, ih hl.2]

lemma takeWhile_append_of_all {p : Char → Bool} (pre suf : List Char)
    (hall : pre.all p = true) :
    (pre ++ suf).takeWhile p = pre ++ suf.takeWhile p := by
  induction pre with
  | nil => rfl
  | cons a m ih =>
    simp only [List.all_cons, Bool.and_eq_true] at hall
    simp [List.takeWhile_cons, hall.1, ih hall.2]

lemma stripSignFn_not_sign {c : Char} (r : List Char) (hm : c ≠ '-')
    (hp : c ≠ '+') : stripSignFn (c :: r) = (1, c :: r) := by
  simp [stripSignFn, hm, hp]

/-- The digit-reading step of JS `parseInt` on a non-empty decimal-digit
prefix followed by text starting with a non-digit: unless the `0x`/`0X`
hex shape applies, it reads exactly the digit prefix. -/
lemma parseDigits_prefix (pre suf : List Char) (hne : pre ≠ [])
    (hall : pre.all isDigitC = true)
    (hsuf : ∀ d, suf.head? = some d → isDigitC d = false)
    (hnothex : ¬(pre = ['0'] ∧
      (suf.head? = some 'x' ∨ suf.head? = some 'X'))) :
    parseDigits (pre ++ suf) = some (digitsVal pre) := by
  obtain ⟨c, pre2, rfl⟩ : ∃ c pre2, pre = c :: pre2 := by
    cases pre with
    | nil => exact absurd rfl hne
    | cons c pre2 => exact ⟨c, pre2, rfl⟩
  have hcd : isDigitC c = true := by
    simp only [List.all_cons, Bool.and_eq_true] at hall
    exact hall.1
  have hsufTW : suf.takeWhile isDigitC = [] := by
    cases suf with
    | nil => rfl
    | cons d suf2 => simp [List.takeWhile_cons, hsuf d rfl]
  have htw : ((c :: pre2) ++ suf).takeWhile isDigitC = c :: pre2 := by
    rw [takeWhile_append_of_all _ _ hall, hsufTW, List.append_nil]
  cases pre2 with
  | nil =>
    cases suf with
    | nil =>
      simp only [List.append_nil] at htw ⊢
      simp [parseDigits, htw]
    | cons d suf2 =>
      have hhex : ¬(c = '0' ∧ (d = 'x' ∨ d = 'X')) := by
        rintro ⟨rfl, rfl | rfl⟩
        · exact hnothex ⟨rfl, Or.inl rfl⟩
        · exact hnothex ⟨rfl, Or.inr rfl⟩
      simp only [List.cons_append, List.nil_append] at htw ⊢
      simp [parseDigits, if_neg hhex, htw]
  | cons e pre3 =>
    have hed : isDigitC e = true := by
      simp only [List.all_cons, Bool.and_eq_true] at hall
      exact hall.2.1
    obtain ⟨_, _, hx, hX⟩ := digit_not_special hed
    have hhex : ¬(c = '0' ∧ (e = 'x' ∨ e = 'X')) := by
      rintro ⟨-, rfl | rfl⟩
      · exact hx rfl
      · exact hX rfl
    simp only [List.cons_append] at htw ⊢
    simp [parseDigits, if_neg hhex, htw]

/-- JS `parseInt` on a non-empty decimal-digit prefix followed by text
starting with a non-digit, excluding the `0x`/`0X` hex shape: the value of
the digit prefix. -/
lemma parseIntJS_digit_prefix (pre suf : List Char) (hne : pre ≠ [])
    (hall : pre.all isDigitC = true)
    (hsuf : ∀ d, suf.head? = some d → isDigitC d = false)
    (hnothex : ¬(pre = ['0'] ∧
      (suf.head? = some 'x' ∨ suf.head? = some 'X'))) :
    parseIntJS (String.mk (pre ++ suf)) =
      some ((digitsVal pre : Nat) : Int) := by
  obtain ⟨c, pre2, rfl⟩ : ∃ c pre2, pre = c :: pre2 := by
    cases pre with
    | nil => exact absurd rfl hne
    | cons c pre2 => exact ⟨c, pre2, rfl⟩
  have hcd : isDigitC c = true := by
    simp only [List.all_cons, Bool.and_eq_true] at hall
    exact hall.1
  have hws := isJsWs_of_digit hcd
  obtain ⟨hm, hp, _, _⟩ := digit_not_special hcd
  have hpd := parseDigits_prefix (c :: pre2) suf hne hall hsuf hnothex
  have hstrip := stripSignFn_not_sign (r := pre2 ++ suf) hm hp
  have hdrop : (c :: (pre2 ++ suf)).dropWhile isJsWs =
      c :: (pre2 ++ suf) := by
    simp [List.dropWhile_cons, hws]
  simp only [List.cons_append] at hpd
  unfold parseIntJS
  rw [show (String.mk ((c :: pre2) ++ suf)).data = c :: (pre2 ++ suf)
    from rfl]
  rw [hdrop, hstrip]
  simp [hpd]

/-- On every string accepted by `parseIntSafe` (all decimal digits), the
lenient JS `parseInt` the source passes to `comment.create` computes the
same value. -/
lemma parseIntJS_agrees_on_digits (s : String) (n : Nat)
    (h : parseIntSafe s = some n) : parseIntJS s = some (n : Int) := by
  unfold parseIntSafe at h
  by_cases hc : s.data ≠ [] ∧ s.data.all isDigitC = true
  swap
  · rw [if_neg hc] at h
    exact absurd h (by simp)
  rw [if_pos hc] at h
  obtain ⟨hne, hall⟩ := hc
  have hn : n = digitsVal s.data := by
    injection h with h
    exact h.symm
  have hnothex : ¬(s.data = ['0'] ∧
      (([] : List Char).head? = some 'x' ∨
        ([] : List Char).head? = some 'X')) := by
    rintro ⟨-, h1 | h1⟩ <;> exact absurd h1 (by simp)
  have h2 := parseIntJS_digit_prefix s.data [] hne hall
    (fun d hd => absurd hd (by simp)) hnothex
  rw [List.append_nil] at h2
  rw [hn]
  exact h2

/-- C1. `postCommentOnLink`: an unparsable `linkId` fails with the
non-existing-link message naming the given id (no trailing period); an
empty body fails with `Cannot post empty comment.`; otherwise
`comment.create` runs, a store-reported `P2003` foreign-key violation is
translated to the same non-existing-link message with a trailing period,
and every other store-reported error propagates to the caller
unmodified. -/
theorem postCommentOnLink_spec :
    (∀ s linkId body, parseIntSafe linkId = none →
      postCommentOnLink s linkId body =
        (.error (.graphQLError
          ("Cannot post comment on non-existing link with id '" ++ linkId ++
            "'")), s)) ∧
    (∀ s linkId (n : Nat), parseIntSafe linkId = some n →
      postCommentOnLink s linkId "" =
        (.error (.graphQLError "Cannot post empty comment."), s)) ∧
    (∀ s linkId body (n : Nat), parseIntSafe linkId = some n → body ≠ "" →
      ¬(∃ l ∈ s.links, (l.id : Int) = (n : Int)) →
      postCommentOnLink s linkId body =
        (.error (.graphQLError
          ("Cannot post comment on non-existing link with id '" ++ linkId ++
            "'.")), s)) ∧
    (∀ s linkId body (n : Nat), parseIntSafe linkId = some n → body ≠ "" →
      (∃ l ∈ s.links, (l.id : Int) = (n : Int)) →
      ∃ c s2, createComment s body (n : Int) = .ok (c, s2) ∧
        postCommentOnLink s linkId body = (.ok c, s2)) ∧
    (∀ linkId e, (∀ m, e ≠ .known "P2003" m) →
      commentCatchHandler linkId e = .storeError e) := by
  refine ⟨?_, ?_, ?_, ?_, ?_⟩
  · intro s linkId body hp
    simp [postCommentOnLink, hp]
  · intro s linkId n hp
    simp [postCommentOnLink, hp]
  · intro s linkId body n hp hb hnone
    have hlen : ¬(body.length = 0) := by
      intro h0
      exact hb (String.ext (List.length_eq_zero.mp h0))
    simp only [postCommentOnLink, hp, if_neg hlen, createComment,
      if_neg hnone, commentCatchHandler]
    simp
  · intro s linkId body n hp hb hsome
    have hlen : ¬(body.length = 0) := by
      intro h0
      exact hb (String.ext (List.length_eq_zero.mp h0))
    refine ⟨{ id := s.nextCommentId, createdAt := s.now, body := body,
              linkId := ((n : Int)).toNat },
      { s with
        comments := s.comments ++
          [{ id := s.nextCommentId, createdAt := s.now, body := body,
             linkId := ((n : Int)).toNat }]
        nextCommentId := s.nextCommentId + 1
        now := s.now + 1 }, ?_, ?_⟩
    · simp only [createComment, if_pos hsome]
    · simp only [postCommentOnLink, hp, if_neg hlen, createComment,
        if_pos hsome]
  · intro linkId e he
    cases e with
    | known code msg =>
      have : ¬(code = "P2003") := by
        rintro rfl
        exact he msg rfl
      simp [commentCatchHandler, this]
    | otherErr msg => rfl

/-- Witness for C1: in a one-link store (the link has id 1), a malformed
id, an empty body, a comment on the missing link 999 and a comment on the
existing link 1, plus the untranslated propagation of a non-P2003 store
error. -/
theorem postCommentOnLink_spec_witness :
    postCommentOnLink oneLinkStore "12abc" "hi" =
      (.error (.graphQLError
        "Cannot post comment on non-existing link with id '12abc'"),
       oneLinkStore) ∧
    postCommentOnLink oneLinkStore "1" "" =
      (.error (.graphQLError "Cannot post empty comment."), oneLinkStore) ∧
    postCommentOnLink oneLinkStore "999" "hi" =
      (.error (.graphQLError
        "Cannot post comment on non-existing link with id '999'."),
       oneLinkStore) ∧
    (postCommentOnLink oneLinkStore "1" "hi").1 =
      .ok { id := 1, createdAt := 1, body := "hi", linkId := 1 } ∧
    commentCatchHandler "1" (.otherErr "disk full") =
      .storeError (.otherErr "disk full") := by
  refine ⟨?_, ?_, ?_, ?_, ?_⟩
  · have h := postCommentOnLink_spec.1 oneLinkStore "12abc" "hi" (by decide)
    rw [h]
    rfl
  · exact postCommentOnLink_spec.2.1 oneLinkStore "1" 1 (by decide)
  · have h := postCommentOnLink_spec.2.2.1 oneLinkStore "999" "hi" 999
      (by decide) (by decide) (by decide)
    rw [h]
    rfl
  · obtain ⟨c, s2, hc, hpost⟩ := postCommentOnLink_spec.2.2.2.1 oneLinkStore
      "1" "hi" 1 (by decide) (by decide)
      ⟨{ id := 1, createdAt := 0, description := "first",
         url := "https://a.b" }, by simp [oneLinkStore]⟩
    rw [hpost]
    have hc2 : createComment oneLinkStore "hi" ((1 : Nat) : Int) =
        .ok ({ id := 1, createdAt := 1, body := "hi", linkId := 1 },
          { oneLinkStore with
            comments := oneLinkStore.comments ++
              [{ id := 1, createdAt := 1, body := "hi", linkId := 1 }]
            nextCommentId := 2
            now := 2 }) := by
      have hex : ∃ l ∈ oneLinkStore.links,
          (l.id : Int) = ((1 : Nat) : Int) :=
        ⟨{ id := 1, createdAt := 0, description := "first",
           url := "https://a.b" }, by simp [oneLinkStore]⟩
      simp only [createComment, if_pos hex]
      rfl
    rw [hc2] at hc
    injection hc with hc
    have hcfst : ({ id := 1, createdAt := 1, body := "hi", linkId := 1 } :
        Comment) = c := (Prod.ext_iff.mp hc).1
    rw [← hcfst]
  · exact postCommentOnLink_spec.2.2.2.2 "1" (.otherErr "disk full")
      (fun m => by simp)

/-- C2. No failed operation mutates the store: `feed` never writes, and
whenever `postLink` or `postCommentOnLink` returns an error — in
particular on every validation failure (invalid URL or domain, empty
description, out-of-range take or skip, unparsable linkId, empty body) —
the persisted state after the call equals the state before it. -/
theorem validation_failure_no_mutation :
    (∀ s needle skip take, (feed s needle skip take).2 = s) ∧
    (∀ s url desc e, (postLink s url desc).1 = .error e →
      (postLink s url desc).2 = s) ∧
    (∀ s linkId body e, (postCommentOnLink s linkId body).1 = .error e →
      (postCommentOnLink s linkId body).2 = s) := by
  refine ⟨?_, ?_, ?_⟩
  · intro s needle skip take
    unfold feed
    cases applyTakeConstraints 1 50 (take.getD 30) with
    | error e => rfl
    | ok t =>
      cases h : applySkipConstraints (skip.getD 0) with
      | error e => simp [h]
      | ok k => simp [h]
  · intro s url desc e
    unfold postLink
    split
    · intro _
      rfl
    · split
      · intro _
        rfl
      · intro hcontra
        exact absurd hcontra (by simp)
  · intro s linkId body e
    unfold postCommentOnLink
    split
    · intro _
      rfl
    · split
      · intro _
        rfl
      · split
        · intro hcontra
          exact absurd hcontra (by simp)
        · intro _
          rfl

set_option maxRecDepth 10000 in
/-- Witness for C2: each operation, failing on a concrete invalid input
over the one-link store, leaves the store exactly as it was. -/
theorem validation_failure_no_mutation_witness :
    (feed oneLinkStore none (some (-2)) (some 10)).2 = oneLinkStore ∧
    (postLink oneLinkStore "not a url" "desc").2 = oneLinkStore ∧
    (postCommentOnLink oneLinkStore "nope" "hi").2 = oneLinkStore := by
  refine ⟨?_, ?_, ?_⟩
  · exact validation_failure_no_mutation.1 oneLinkStore none (some (-2))
      (some 10)
  · exact validation_failure_no_mutation.2.1 oneLinkStore "not a url" "desc"
      (.graphQLError "Invalid domain format.") (by rfl)
  · exact validation_failure_no_mutation.2.2 oneLinkStore "nope" "hi"
      (.graphQLError "Cannot post comment on non-existing link with id 'nope'")
      (by rfl)

/-! ### `Link.comments` ordering -/

/-- C8. `Link.comments` returns exactly the Comments whose `linkId` equals
the Link's id, ordered by `createdAt` descending (newest first): the
result holds a comment iff the store holds it for this link, consecutive
results are pairwise newest-first, and a comment created at a later time
always precedes one created at an earlier time. -/
theorem linkComments_spec (s : StoreState) (parent : Link) :
    (∀ c, c ∈ linkComments s parent ↔
      (c ∈ s.comments ∧ c.linkId = parent.id)) ∧
    (linkComments s parent).Pairwise newerFirst ∧
    (∀ i j : Fin (linkComments s parent).length,
      ((linkComments s parent).get i).createdAt <
          ((linkComments s parent).get j).createdAt → j < i) := by
  have hperm := List.perm_insertionSort newerFirst
    (s.comments.filter fun c => c.linkId = parent.id)
  have hsorted := List.sorted_insertionSort newerFirst
    (s.comments.filter fun c => c.linkId = parent.id)
  refine ⟨?_, hsorted, ?_⟩
  · intro c
    rw [linkComments, hperm.mem_iff, List.mem_filter]
    simp
  · intro i j hlt
    by_contra hji
    push_neg at hji
    rcases Nat.lt_or_ge i.val j.val with hij | hij
    · have hpg := (List.pairwise_iff_get.mp hsorted) i j (Fin.lt_def.mpr hij)
      have hle : ((linkComments s parent).get j).createdAt ≤
          ((linkComments s parent).get i).createdAt := hpg
      exact absurd hlt (Nat.not_lt.mpr hle)
    · have : i = j := Fin.ext (Nat.le_antisymm (Fin.le_def.mp hji) hij)
      rw [this] at hlt
      exact absurd hlt (Nat.lt_irrefl _)

/-- Witness for C8: a store with two comments on link 1 created at times
1 < 2 returns them newest first. -/
theorem linkComments_spec_witness :
    linkComments
      { links := [{ id := 1, createdAt := 0, description := "first",
                    url := "https://a.b" }]
        comments := [{ id := 1, createdAt := 1, body := "older", linkId := 1 },
                     { id := 2, createdAt := 2, body := "newer", linkId := 1 },
                     { id := 3, createdAt := 3, body := "other", linkId := 2 }]
        nextLinkId := 2
        nextCommentId := 4
        now := 4 }
      { id := 1, createdAt := 0, description := "first",
        url := "https://a.b" } =
      [{ id := 2, createdAt := 2, body := "newer", linkId := 1 },
       { id := 1, createdAt := 1, body := "older", linkId := 1 }] ∧
    ({ id := 2, createdAt := 2, body := "newer", linkId := 1 } : Comment) ∈
      linkComments
        { links := [{ id := 1, createdAt := 0, description := "first",
                      url := "https://a.b" }]
          comments := [{ id := 1, createdAt := 1, body := "older", linkId := 1 },
                       { id := 2, createdAt := 2, body := "newer", linkId := 1 },
                       { id := 3, createdAt := 3, body := "other", linkId := 2 }]
          nextLinkId := 2
          nextCommentId := 4
          now := 4 }
        { id := 1, createdAt := 0, description := "first",
          url := "https://a.b" } := by
  constructor
  · rfl
  · exact ((linkComments_spec _ _).1 _).mpr ⟨by simp, rfl⟩

/-! ### `validateAndNormalizeUrl` -/

set_option maxRecDepth 10000 in
/-- C5. `validateAndNormalizeUrl` trims surrounding whitespace; a trimmed
text starting with `http://` or `https://` is returned unchanged when it
matches the URL pattern and otherwise fails with exactly
`Invalid URL format.`; a text without such a scheme is returned with
`https://` prepended when it matches the scheme-less pattern and
otherwise fails with exactly `Invalid domain format.`. In particular
`example.com` normalizes to `https://example.com`,
`https://example.com/a?b=1` is unchanged, and `not a url` fails with
`Invalid domain format.`. -/
theorem validateAndNormalizeUrl_spec :
    validateAndNormalizeUrl "example.com" = .ok "https://example.com" ∧
    validateAndNormalizeUrl "https://example.com/a?b=1" =
      .ok "https://example.com/a?b=1" ∧
    validateAndNormalizeUrl "not a url" =
      .error (.graphQLError "Invalid domain format.") ∧
    (∀ l, (schemePrefix l).isSome ↔
      ("http://".data.isPrefixOf l = true ∨
        "https://".data.isPrefixOf l = true)) ∧
    (∀ url rest, schemePrefix (trimL url.data) = some rest →
      (domainBody rest = true →
        validateAndNormalizeUrl url = .ok (String.mk (trimL url.data))) ∧
      (domainBody rest = false →
        validateAndNormalizeUrl url =
          .error (.graphQLError "Invalid URL format."))) ∧
    (∀ url, schemePrefix (trimL url.data) = none →
      (domainBody (trimL url.data) = true →
        validateAndNormalizeUrl url =
          .ok (String.mk ("https://".data ++ trimL url.data))) ∧
      (domainBody (trimL url.data) = false →
        validateAndNormalizeUrl url =
          .error (.graphQLError "Invalid domain format."))) := by
  refine ⟨by rfl, by rfl, by rfl, ?_, ?_, ?_⟩
  · intro l
    unfold schemePrefix
    by_cases h1 : "http://".data.isPrefixOf l = true
    · simp [h1]
    · by_cases h2 : "https://".data.isPrefixOf l = true
      · simp [h1, h2]
      · simp [h1, h2]
  · intro url rest hs
    constructor
    · intro hd
      simp only [validateAndNormalizeUrl, hs, hd, if_true]
    · intro hd
      simp only [validateAndNormalizeUrl, hs, hd]
      simp
  · intro url hs
    constructor
    · intro hd
      simp only [validateAndNormalizeUrl, hs, hd, if_true]
    · intro hd
      simp only [validateAndNormalizeUrl, hs, hd]
      simp

set_option maxRecDepth 10000 in
/-- Witness for C5: the with-scheme and scheme-less branches applied at
concrete inputs. -/
theorem validateAndNormalizeUrl_spec_witness :
    validateAndNormalizeUrl " www.a.org/x " = .ok "https://www.a.org/x" ∧
    validateAndNormalizeUrl "http://bad" =
      .error (.graphQLError "Invalid URL format.") := by
  constructor
  · have h := (validateAndNormalizeUrl_spec.2.2.2.2.2 " www.a.org/x "
      (by rfl)).1 (by rfl)
    rw [h]
    rfl
  · exact (validateAndNormalizeUrl_spec.2.2.2.2.1 "http://bad" "bad".data
      (by rfl)).2 (by rfl)

/-! ### Idempotence of `validateAndNormalizeUrl` -/

lemma trimL_eq_rdropWhile (l : List Char) :
    trimL l = (l.dropWhile isJsWs).rdropWhile isJsWs := rfl

lemma head_dropWhile_false {p : Char → Bool} {l : List Char} {c : Char}
    {m : List Char} (h : l.dropWhile p = c :: m) : p c = false := by
  have hid := List.dropWhile_idempotent p l
  rw [h, List.dropWhile_cons] at hid
  by_cases hc : p c = true
  · rw [if_pos hc] at hid
    have hlen := congrArg List.length hid
    have hle := (List.dropWhile_suffix (l := m) p).length_le
    simp at hlen
    omega
  · simpa using hc

lemma dropWhile_trimL (l : List Char) :
    (trimL l).dropWhile isJsWs = trimL l := by
  cases hr : trimL l with
  | nil => rfl
  | cons c m =>
    have hpre := List.rdropWhile_prefix isJsWs (l.dropWhile isJsWs)
    rw [trimL_eq_rdropWhile] at hr
    rw [hr] at hpre
    obtain ⟨t, ht⟩ := hpre
    have hc : isJsWs c = false := head_dropWhile_false (l := l) ht.symm
    simp [List.dropWhile_cons, hc]

lemma rdropWhile_trimL (l : List Char) :
    (trimL l).rdropWhile isJsWs = trimL l := by
  rw [trimL_eq_rdropWhile]
  exact List.rdropWhile_idempotent isJsWs (l.dropWhile isJsWs)

lemma trimL_idem (l : List Char) : trimL (trimL l) = trimL l := by
  rw [trimL_eq_rdropWhile (trimL l), dropWhile_trimL, rdropWhile_trimL]

lemma schemePrefix_https (t : List Char) :
    schemePrefix ("https://".data ++ t) = some t := by
  have h1 : ¬("http://".data.isPrefixOf ("https://".data ++ t) = true) := by
    simp [List.isPrefixOf]
  have h2 : "https://".data.isPrefixOf ("https://".data ++ t) = true :=
    List.isPrefixOf_iff_prefix.mpr (List.prefix_append _ _)
  unfold schemePrefix
  rw [if_neg h1, if_pos h2]
  rfl

lemma trimL_https_append (t : List Char) (hne : t ≠ [])
    (htr : trimL t = t) :
    trimL ("https://".data ++ t) = "https://".data ++ t := by
  have hdw : t.dropWhile isJsWs = t := by
    have hsuf := List.dropWhile_suffix (l := t) isJsWs
    have hpre := List.rdropWhile_prefix isJsWs (t.dropWhile isJsWs)
    have hlen1 := hsuf.length_le
    have hlen2 := hpre.length_le
    rw [trimL_eq_rdropWhile] at htr
    have hlen3 := congrArg List.length htr
    exact hsuf.eq_of_length (by omega)
  have hrd : t.rdropWhile isJsWs = t := by
    rw [trimL_eq_rdropWhile, hdw] at htr
    exact htr
  rw [trimL_eq_rdropWhile]
  have hd : ("https://".data ++ t).dropWhile isJsWs =
      "https://".data ++ t := by
    show (('h' : Char) :: ("ttps://".data ++ t)).dropWhile isJsWs = _
    rw [List.dropWhile_cons]
    have hh : isJsWs 'h' = false := rfl
    rw [hh]
    rfl
  rw [hd]
  rw [List.rdropWhile_eq_self_iff]
  intro hl
  rw [List.getLast_append' _ _ hne]
  exact List.rdropWhile_eq_self_iff.mp hrd hne

set_option maxRecDepth 10000 in
/-- C10. `validateAndNormalizeUrl` is idempotent on its successes: whenever
it succeeds, re-normalizing the returned URL succeeds and returns it
unchanged. -/
theorem validateAndNormalizeUrl_idempotent (url u : String)
    (h : validateAndNormalizeUrl url = .ok u) :
    validateAndNormalizeUrl u = .ok u := by
  unfold validateAndNormalizeUrl at h
  split at h
  next rest heq =>
    split at h
    next hd =>
      injection h with h
      subst h
      unfold validateAndNormalizeUrl
      have hdata : (String.mk (trimL url.data)).data = trimL url.data := rfl
      rw [hdata, trimL_idem, heq]
      simp only [hd, if_true]
    next hd =>
      exact absurd h (by simp)
  next heq =>
    split at h
    next hd =>
      injection h with h
      subst h
      by_cases hT : trimL url.data = []
      · rw [hT] at hd
        exact absurd hd (by decide)
      · have htrim := trimL_https_append (trimL url.data) hT
          (trimL_idem url.data)
        unfold validateAndNormalizeUrl
        have hdata : (String.mk ("https://".data ++ trimL url.data)).data =
            "https://".data ++ trimL url.data := rfl
        rw [hdata, htrim, schemePrefix_https]
        simp only [hd, if_true]
    next hd =>
      exact absurd h (by simp)

set_option maxRecDepth 10000 in
/-- Witness for C10: re-normalizing the normalization of `example.com`
returns it unchanged. -/
theorem validateAndNormalizeUrl_idempotent_witness :
    validateAndNormalizeUrl "https://example.com" = .ok "https://example.com" :=
  validateAndNormalizeUrl_idempotent "example.com" "https://example.com"
    (by rfl)

/-! ### Lenient id parsing in `Query.link` / `Query.comment` -/

/-- C9 counterexample. The id `0xf` consists of the non-empty decimal-digit
prefix `0` followed by the non-digit characters `xf`, yet `link("0xf")`
does not use the digit-prefix value 0: JS `parseInt` reads the `0x` prefix
as hexadecimal and looks up id 15, so the lookup differs from looking up
the prefix `"0"` alone. Moreover the id `" 15"` has no leading digit yet
returns a record rather than a lookup miss (`parseInt` skips leading
whitespace). -/
theorem queryLink_lenient_cex :
    ("0xf".data = "0".data ++ "xf".data ∧ "0".data ≠ [] ∧
      "0".data.all isDigitC = true ∧
      (∀ c ∈ "xf".data, isDigitC c = false)) ∧
    queryLink hexStore "0xf" =
      some { id := 15, createdAt := 0, description := "fifteen",
             url := "https://x.y" } ∧
    queryLink hexStore "0" = none ∧
    queryLink hexStore "0xf" ≠ queryLink hexStore "0" ∧
    (" 15".data.head? = some ' ' ∧ isDigitC ' ' = false) ∧
    queryLink hexStore " 15" =
      some { id := 15, createdAt := 0, description := "fifteen",
             url := "https://x.y" } := by
  refine ⟨by decide, by rfl, by rfl, by decide, by decide, by rfl⟩

/-- C9 amended. `link(id)` and `comment(id)` parse the id leniently with JS
`parseInt` semantics: for every id made of a non-empty decimal-digit
prefix followed by non-digit characters — excluding the hexadecimal
`0x`/`0X` shape, which `parseInt` with no radix reads as base 16 — the
lookup uses the integer value of the digit prefix and returns the same
result as looking up the prefix alone; an id in which `parseInt` finds no
number at all (`NaN`) produces a lookup miss (absent), never a validation
error. -/
theorem queryLink_lenient_amended :
    (∀ (s : StoreState) (pre suf : List Char), pre ≠ [] →
      pre.all isDigitC = true →
      (∀ d, suf.head? = some d → isDigitC d = false) →
      ¬(pre = ['0'] ∧ (suf.head? = some 'x' ∨ suf.head? = some 'X')) →
      queryLink s (String.mk (pre ++ suf)) =
        findLinkById s ((digitsVal pre : Nat) : Int) ∧
      queryLink s (String.mk (pre ++ suf)) = queryLink s (String.mk pre) ∧
      queryComment s (String.mk (pre ++ suf)) =
        queryComment s (String.mk pre)) ∧
    (∀ (s : StoreState) (id : String), parseIntJS id = none →
      queryLink s id = none ∧ queryComment s id = none) := by
  constructor
  · intro s pre suf hne hall hsuf hnothex
    have hfull := parseIntJS_digit_prefix pre suf hne hall hsuf hnothex
    have hpre : parseIntJS (String.mk pre) =
        some ((digitsVal pre : Nat) : Int) := by
      have := parseIntJS_digit_prefix pre [] hne hall
        (by intro d hd; exact absurd hd (by simp))
        (by rintro ⟨-, h | h⟩ <;> exact absurd h (by simp))
      simpa using this
    refine ⟨?_, ?_, ?_⟩
    · simp [queryLink, hfull]
    · simp [queryLink, hfull, hpre]
    · simp [queryComment, hfull, hpre]
  · intro s id h
    exact ⟨by simp [queryLink, h], by simp [queryComment, h]⟩

/-- Witness for the amended C9: `link("12abc")` in the hex store looks up
id 12 (a miss), exactly as `link("12")` does, and `link("zz")` is a miss. -/
theorem queryLink_lenient_amended_witness :
    queryLink hexStore "12abc" = none ∧
    queryLink hexStore "12abc" = queryLink hexStore "12" ∧
    queryLink hexStore "zz" = none := by
  have h := queryLink_lenient_amended.1 hexStore "12".data "abc".data
    (by decide) (by decide) (by decide)
    (by rintro ⟨h, -⟩; exact absurd h (by decide))
  refine ⟨?_, h.2.1, ?_⟩
  · have h1 : queryLink hexStore "12abc" =
        findLinkById hexStore ((digitsVal "12".data : Nat) : Int) := h.1
    rw [h1]
    rfl
  · exact (queryLink_lenient_amended.2 hexStore "zz" (by rfl)).1

end HackerNews
